import Mathlib

/-!
Verification development for the process-execution and interrupt-coordination
subsystem in `toolsrc/src/vcpkg/base/system.cpp`.

The file shallowly embeds the relevant parts of the source:

* the `CtrlCStateMachine` interrupt coordinator (an atomic signed counter with
  compare-and-exchange transitions);
* the line-splitting loop of `cmd_execute_and_stream_lines`;
* the exit-code paths of `cmd_execute` and `cmd_execute_and_stream_data`;
* the environment-block construction of `get_environment`;
* the environment-diff parser of `cmd_execute_modify_env`.

Machine integers are modelled as `Int`/`Nat` with the 32-bit constants written
out explicitly; bytes are modelled as `Nat`; fallible operations (paths on which
the code calls `Checks::check_exit` / `Checks::exit_fail` and aborts) return
`Option`.
-/

/-! ## Interrupt coordinator: `CtrlCStateMachine`

The C++ object holds a single `std::atomic<int> m_number_of_external_processes`.
All three transitions are lock-free retry loops on that counter; each one
linearizes at its successful `compare_exchange_strong` / `fetch_add`, so an
interleaving of threads is modelled as a sequence of atomic events applied to a
global state.  The state carries the counter itself plus ghost bookkeeping:
`outstanding` counts children that have been spawned and not yet waited on,
`exits` counts calls to `Checks::final_cleanup_and_exit`, and `interrupted`
records whether a Ctrl-C has been observed. -/

/-- `INT_MIN` of a 32-bit `int`, i.e. `-(2^31)`. -/
def intMin : Int := -2147483648

/-- Global state of the coordinator: the atomic counter (`counter`) together
with ghost observables (`outstanding` spawned-but-unwaited children, number of
`final_cleanup_and_exit` calls, whether Ctrl-C was observed). -/
structure CoordState where
  counter : Int
  outstanding : Nat
  interrupted : Bool
  exits : Nat
  deriving DecidableEq, Repr

/-- `CtrlCStateMachine::transition_to_spawn_process`: the CAS loop increments
the counter; if the observed value is negative the calling thread instead
sleeps forever ("Waiting for child processes to exit...") and never spawns, so
the state is unchanged.  A successful increment is followed by the spawn, so
`outstanding` grows with it. -/
def transition_to_spawn_process (s : CoordState) : CoordState :=
  if s.counter < 0 then s
  else { s with counter := s.counter + 1, outstanding := s.outstanding + 1 }

/-- `CtrlCStateMachine::transition_from_spawn_process`: called after a spawned
child has been waited on (so it requires `outstanding ≠ 0`; with no outstanding
child the event cannot occur and is a stutter).  `fetch_add(-1)` decrements the
counter; if the previous value was `INT_MIN + 1` this was the last outstanding
child after a Ctrl-C and the thread performs `final_cleanup_and_exit(1)`;
if the previous value was negative otherwise, the thread sleeps forever. -/
def transition_from_spawn_process (s : CoordState) : CoordState :=
  if s.outstanding = 0 then s
  else
    let previous := s.counter
    let s' : CoordState :=
      { s with counter := s.counter - 1, outstanding := s.outstanding - 1 }
    if previous = intMin + 1 then { s' with exits := s'.exits + 1 }
    else s'

/-- `CtrlCStateMachine::transition_handle_ctrl_c`: the CAS loop flips the
counter from `v ≥ 0` to `v + INT_MIN`; a negative observed value means a
previous Ctrl-C already succeeded and the duplicate is ignored.  If the flipped
value was `0`, no child is outstanding and the handler performs
`final_cleanup_and_exit(1)` immediately; otherwise termination is deferred to
`transition_from_spawn_process`. -/
def transition_handle_ctrl_c (s : CoordState) : CoordState :=
  if s.counter < 0 then s
  else if s.counter = 0 then
    { s with counter := intMin, interrupted := true, exits := s.exits + 1 }
  else { s with counter := s.counter + intMin, interrupted := true }

/-- One atomic coordinator event of an interleaving. -/
inductive CEvent
  | spawn
  | complete
  | ctrlc
  deriving DecidableEq, Repr

/-- Apply one coordinator event. -/
def applyEvent (e : CEvent) (s : CoordState) : CoordState :=
  match e with
  | .spawn => transition_to_spawn_process s
  | .complete => transition_from_spawn_process s
  | .ctrlc => transition_handle_ctrl_c s

/-- The idle initial state (`C = 0`, constructor of `CtrlCStateMachine`). -/
def initCoord : CoordState := ⟨0, 0, false, 0⟩

/-- Run an interleaving of coordinator events from the idle state. -/
def runCoord (es : List CEvent) : CoordState :=
  es.foldl (fun s e => applyEvent e s) initCoord

/-- What a thread calling `transition_to_spawn_process` in state `s` does:
either it proceeds to spawn, or it enters the indefinite waiting branch. -/
inductive SpawnOutcome
  | proceeded
  | waitedForever
  deriving DecidableEq, Repr

/-- Branch taken by `transition_to_spawn_process` in state `s`. -/
def spawnOutcome (s : CoordState) : SpawnOutcome :=
  if s.counter < 0 then .waitedForever else .proceeded

/-- What a thread calling `transition_from_spawn_process` in state `s` does:
it performs the final shutdown, enters the indefinite waiting branch, or
returns normally. -/
inductive CompleteOutcome
  | exited
  | waitedForever
  | returnedNormally
  deriving DecidableEq, Repr

/-- Branch taken by `transition_from_spawn_process` in state `s` (the
pre-decrement value decides the branch). -/
def completeOutcome (s : CoordState) : CompleteOutcome :=
  if s.counter = intMin + 1 then .exited
  else if s.counter < 0 then .waitedForever
  else .returnedNormally

/-- Inductive invariant of the coordinator: either no interrupt was observed
and the counter equals the outstanding-children count; or an interrupt is in
flight and the counter sits at `INT_MIN + outstanding` with at least one child
outstanding; or the final shutdown has been performed exactly once, with no
child outstanding, and the counter is parked at `INT_MIN`. -/
def CoordInv (s : CoordState) : Prop :=
  (s.exits = 0 ∧ s.interrupted = false ∧ s.counter = s.outstanding) ∨
  (s.exits = 0 ∧ s.interrupted = true ∧
    s.counter = intMin + s.outstanding ∧ 1 ≤ s.outstanding) ∨
  (s.exits = 1 ∧ s.interrupted = true ∧ s.counter = intMin ∧ s.outstanding = 0)

theorem applyEvent_outstanding_le (e : CEvent) (s : CoordState) :
    (applyEvent e s).outstanding ≤ s.outstanding + 1 := by
  obtain ⟨c, o, i, x⟩ := s
  cases e <;>
    simp only [applyEvent, transition_to_spawn_process, transition_from_spawn_process,
      transition_handle_ctrl_c] <;>
    split_ifs <;> simp <;> omega

theorem coordInv_step (e : CEvent) (s : CoordState) (hInv : CoordInv s)
    (hb : s.outstanding < 2 ^ 31) : CoordInv (applyEvent e s) := by
  obtain ⟨c, o, i, x⟩ := s
  replace hb : o < 2 ^ 31 := hb
  cases e
  case spawn =>
    simp only [applyEvent, transition_to_spawn_process, CoordInv, intMin] at hInv ⊢
    split_ifs with hc
    · exact hInv
    · cases i <;>
        rcases hInv with ⟨h1, h2, h3⟩ | ⟨h1, h2, h3⟩ | ⟨h1, h2, h3⟩ <;>
        simp_all <;> omega
  case complete =>
    simp only [applyEvent, transition_from_spawn_process, CoordInv, intMin] at hInv ⊢
    split_ifs with h0 he
    · exact hInv
    · cases i <;>
        rcases hInv with ⟨h1, h2, h3⟩ | ⟨h1, h2, h3⟩ | ⟨h1, h2, h3⟩ <;>
        simp_all <;> omega
    · cases i <;>
        rcases hInv with ⟨h1, h2, h3⟩ | ⟨h1, h2, h3⟩ | ⟨h1, h2, h3⟩ <;>
        simp_all <;> omega
  case ctrlc =>
    simp only [applyEvent, transition_handle_ctrl_c, CoordInv, intMin] at hInv ⊢
    split_ifs with hneg hz
    · exact hInv
    · cases i <;>
        rcases hInv with ⟨h1, h2, h3⟩ | ⟨h1, h2, h3⟩ | ⟨h1, h2, h3⟩ <;>
        simp_all <;> omega
    · cases i <;>
        rcases hInv with ⟨h1, h2, h3⟩ | ⟨h1, h2, h3⟩ | ⟨h1, h2, h3⟩ <;>
        simp_all <;> omega

theorem coordInv_runFrom (es : List CEvent) (s : CoordState) (hInv : CoordInv s)
    (hb : s.outstanding + es.length < 2 ^ 31) :
    CoordInv (es.foldl (fun t e => applyEvent e t) s) := by
  induction es generalizing s with
  | nil => exact hInv
  | cons e rest ih =>
    simp only [List.length_cons] at hb
    have hInv' := coordInv_step e s hInv (by omega)
    have hout := applyEvent_outstanding_le e s
    simpa using ih (applyEvent e s) hInv' (by omega)

/-- C1: for every interleaving of coordinator transitions starting from the
idle state, as long as fewer than `2^31` events occur (the counter is a 32-bit
`int`): the final shutdown `final_cleanup_and_exit` is performed at most once;
whenever it has been performed, no spawned child is still unwaited; and a
Ctrl-C delivered in a state with `C = 0` performs the shutdown immediately. -/
theorem ctrl_c_coordination_safe (es : List CEvent) (hlen : es.length < 2 ^ 31) :
    (runCoord es).exits ≤ 1 ∧
    ((runCoord es).exits = 1 → (runCoord es).outstanding = 0) ∧
    ((runCoord es).counter = 0 →
      (transition_handle_ctrl_c (runCoord es)).exits = (runCoord es).exits + 1) := by
  have hInv : CoordInv (runCoord es) := by
    have h0 : CoordInv initCoord := Or.inl (by simp [initCoord, CoordState.counter])
    simpa [runCoord] using coordInv_runFrom es initCoord h0 (by simp [initCoord]; omega)
  refine ⟨?_, ?_, ?_⟩
  · rcases hInv with ⟨h1, _⟩ | ⟨h1, _⟩ | ⟨h1, _⟩ <;> omega
  · intro hx
    rcases hInv with ⟨h1, _⟩ | ⟨h1, _⟩ | ⟨h1, h2, h3, h4⟩ <;> omega
  · intro hc
    simp [transition_handle_ctrl_c, hc]

theorem ctrl_c_coordination_safe_witness :
    ([CEvent.ctrlc].length < 2 ^ 31) ∧
    ((runCoord [CEvent.ctrlc]).exits ≤ 1 ∧
     ((runCoord [CEvent.ctrlc]).exits = 1 → (runCoord [CEvent.ctrlc]).outstanding = 0) ∧
     ((runCoord [CEvent.ctrlc]).counter = 0 →
       (transition_handle_ctrl_c (runCoord [CEvent.ctrlc])).exits =
         (runCoord [CEvent.ctrlc]).exits + 1)) :=
  ⟨by decide, ctrl_c_coordination_safe [CEvent.ctrlc] (by decide)⟩

/-- C2, counterexample to the claim as stated: starting idle, after pre-spawn,
Ctrl-C, pre-spawn, the second pre-spawn observes a negative counter and enters
the indefinite waiting branch without spawning (so exactly one child is
outstanding), and the first (and only possible) post-completion transition
takes the termination branch, not the waiting branch as the claim asserts. -/
theorem c2_counterexample :
    spawnOutcome (transition_handle_ctrl_c (transition_to_spawn_process initCoord)) =
      SpawnOutcome.waitedForever ∧
    (transition_to_spawn_process
      (transition_handle_ctrl_c (transition_to_spawn_process initCoord))).outstanding = 1 ∧
    completeOutcome (transition_to_spawn_process
      (transition_handle_ctrl_c (transition_to_spawn_process initCoord))) =
      CompleteOutcome.exited ∧
    completeOutcome (transition_to_spawn_process
      (transition_handle_ctrl_c (transition_to_spawn_process initCoord))) ≠
      CompleteOutcome.waitedForever := by decide

/-- C2 amended: starting from idle, pre-spawn twice then post-completion twice
returns the counter to `0` with no shutdown; if an interrupt is delivered
between the two pre-spawns, the second pre-spawn enters the indefinite waiting
branch and never spawns (the state is unchanged and only one child is
outstanding), and the sole post-completion transition — the one that brings the
outstanding count to zero — triggers process termination. -/
theorem c2_amended :
    (runCoord [CEvent.spawn, CEvent.spawn, CEvent.complete, CEvent.complete]).counter = 0 ∧
    (runCoord [CEvent.spawn, CEvent.spawn, CEvent.complete, CEvent.complete]).exits = 0 ∧
    spawnOutcome (runCoord [CEvent.spawn, CEvent.ctrlc]) = SpawnOutcome.waitedForever ∧
    runCoord [CEvent.spawn, CEvent.ctrlc, CEvent.spawn] =
      runCoord [CEvent.spawn, CEvent.ctrlc] ∧
    (runCoord [CEvent.spawn, CEvent.ctrlc, CEvent.spawn]).outstanding = 1 ∧
    completeOutcome (runCoord [CEvent.spawn, CEvent.ctrlc, CEvent.spawn]) =
      CompleteOutcome.exited ∧
    (runCoord [CEvent.spawn, CEvent.ctrlc, CEvent.spawn, CEvent.complete]).exits = 1 ∧
    (runCoord [CEvent.spawn, CEvent.ctrlc, CEvent.spawn, CEvent.complete]).outstanding = 0 := by
  decide

/-! ## Output streamer: `cmd_execute_and_stream_lines`

`cmd_execute_and_stream_lines` wraps `cmd_execute_and_stream_data` with a
callback that appends each chunk to a buffer `buf` and then repeatedly finds
the first `'\n'` (byte 10) in `buf`, invokes `per_line_cb` on the prefix before
it (terminator stripped), and erases the prefix including the terminator; when
the stream ends, `per_line_cb(buf)` is invoked once more on the remaining
fragment.  (The code starts its first search at `prev_size`, which is
equivalent to searching the whole buffer because the retained buffer never
contains `'\n'`.)  Bytes are modelled as `Nat`. -/

/-- The inner `while`-loop of the chunk callback: split a buffer into the list
of complete `'\n'`-terminated lines (in order, terminators stripped) and the
remaining fragment after the last `'\n'`.  Structural formulation of "find the
first `'\n'`, emit the prefix, erase through it, repeat". -/
def extractLines : List Nat → List (List Nat) × List Nat
  | [] => ([], [])
  | c :: cs =>
    let p := extractLines cs
    if c = 10 then ([] :: p.1, p.2)
    else
      match p.1 with
      | [] => ([], c :: p.2)
      | l :: ls => ((c :: l) :: ls, p.2)

/-- Processing one chunk delivered by `cmd_execute_and_stream_data`: append the
chunk to the buffer and move every complete line to the emitted-lines list. -/
def lineStep (s : List (List Nat) × List Nat) (chunk : List Nat) :
    List (List Nat) × List Nat :=
  ((s.1 ++ (extractLines (s.2 ++ chunk)).1), (extractLines (s.2 ++ chunk)).2)

/-- The full sequence of `per_line_cb` invocations made by
`cmd_execute_and_stream_lines` when the child's combined output arrives as the
given chunks: the lines emitted during streaming, then the final
`per_line_cb(buf)` on the leftover buffer. -/
def streamLines (chunks : List (List Nat)) : List (List Nat) :=
  (chunks.foldl lineStep ([], [])).1 ++ [(chunks.foldl lineStep ([], [])).2]

/-- Concatenate emitted lines re-inserting a `'\n'` terminator after each line
except the last. -/
def rejoin : List (List Nat) → List Nat
  | [] => []
  | [l] => l
  | l :: l' :: ls => l ++ 10 :: rejoin (l' :: ls)

/-- Concatenation of lines, each with its `'\n'` terminator re-inserted. -/
def joinLines (ls : List (List Nat)) : List Nat :=
  (ls.map (fun l => l ++ [10])).flatten

theorem extractLines_length (l : List Nat) :
    (extractLines l).1.length = l.count 10 := by
  induction l with
  | nil => simp [extractLines]
  | cons c cs ih =>
    simp only [extractLines]
    rcases h : (extractLines cs).1 with _ | ⟨hd, tl⟩ <;>
      rw [h] at ih <;>
      by_cases hc : c = 10 <;>
      simp_all [List.count_cons]

theorem extractLines_join (l : List Nat) :
    joinLines (extractLines l).1 ++ (extractLines l).2 = l := by
  induction l with
  | nil => simp [extractLines, joinLines]
  | cons c cs ih =>
    simp only [extractLines]
    rcases h : (extractLines cs).1 with _ | ⟨hd, tl⟩ <;>
      rw [h] at ih <;>
      by_cases hc : c = 10 <;>
      simp_all [joinLines]

theorem extractLines_rest (l : List Nat) : 10 ∉ (extractLines l).2 := by
  induction l with
  | nil => simp [extractLines]
  | cons c cs ih =>
    simp only [extractLines]
    rcases h : (extractLines cs).1 with _ | ⟨hd, tl⟩ <;>
      by_cases hc : c = 10 <;>
      simp_all <;>
      omega

theorem joinLines_append (a b : List (List Nat)) :
    joinLines (a ++ b) = joinLines a ++ joinLines b := by
  simp [joinLines]

theorem lineStep_foldl (chunks : List (List Nat)) (acc : List (List Nat))
    (buf : List Nat) (hbuf : 10 ∉ buf) :
    ((chunks.foldl lineStep (acc, buf)).1.length =
        acc.length + (buf ++ chunks.flatten).count 10) ∧
    (10 ∉ (chunks.foldl lineStep (acc, buf)).2) ∧
    (joinLines (chunks.foldl lineStep (acc, buf)).1 ++
        (chunks.foldl lineStep (acc, buf)).2 =
      joinLines acc ++ (buf ++ chunks.flatten)) := by
  induction chunks generalizing acc buf with
  | nil =>
    refine ⟨?_, hbuf, by simp⟩
    simp [List.count_eq_zero.2 hbuf]
  | cons ch rest ih =>
    have hrest := extractLines_rest (buf ++ ch)
    have hlen := extractLines_length (buf ++ ch)
    have hjoin := extractLines_join (buf ++ ch)
    obtain ⟨ih1, ih2, ih3⟩ :=
      ih (acc ++ (extractLines (buf ++ ch)).1) (extractLines (buf ++ ch)).2 hrest
    refine ⟨?_, by simpa [lineStep] using ih2, ?_⟩
    · simp only [List.foldl_cons, lineStep] at ih1 ⊢
      rw [ih1]
      simp only [List.length_append, List.count_append, List.flatten_cons] at hlen ⊢
      have hb0 : List.count 10 buf = 0 := List.count_eq_zero.2 hbuf
      have hr0 : List.count 10 (extractLines (buf ++ ch)).2 = 0 := List.count_eq_zero.2 hrest
      omega
    · simp only [List.foldl_cons, lineStep] at ih3 ⊢
      rw [ih3, joinLines_append, List.append_assoc,
        ← List.append_assoc (joinLines (extractLines (buf ++ ch)).1), hjoin]
      simp [List.append_assoc]

theorem rejoin_append_last (ls : List (List Nat)) (b : List Nat) :
    rejoin (ls ++ [b]) = joinLines ls ++ b := by
  induction ls with
  | nil => simp [rejoin, joinLines]
  | cons l ls ih =>
    cases ls with
    | nil => simp [rejoin, joinLines]
    | cons l' ls' =>
      simp only [List.cons_append, rejoin, List.append_eq] at ih ⊢
      rw [ih]
      simp [joinLines]

/-- C3: over any chunking of the child's combined output, the per-line
callback of `cmd_execute_and_stream_lines` is invoked exactly `N + 1` times,
where `N` is the number of `'\n'` bytes in the output (the last line possibly
empty), and concatenating the emitted lines, re-inserting a `'\n'` after each
of the first `N` lines, reproduces the original byte sequence exactly. -/
theorem stream_lines_count_and_concat (chunks : List (List Nat)) :
    (streamLines chunks).length = chunks.flatten.count 10 + 1 ∧
    rejoin (streamLines chunks) = chunks.flatten := by
  obtain ⟨h1, _, h3⟩ :=
    lineStep_foldl chunks [] [] (by simp)
  constructor
  · simp only [streamLines, List.length_append, List.length_singleton]
    simpa using h1
  · simp only [streamLines, rejoin_append_last]
    simpa [joinLines] using h3

theorem extractLines_append_nl (a r : List Nat) (ha : 10 ∉ a) :
    extractLines (a ++ 10 :: r) = (a :: (extractLines r).1, (extractLines r).2) := by
  induction a with
  | nil => simp [extractLines]
  | cons c a' ih =>
    have hc : ¬ c = 10 := by
      intro h
      exact ha (by simp [h])
    have ih' := ih (by intro h; exact ha (by simp [h]))
    simp [List.cons_append, extractLines, List.append_eq, ih', hc]

theorem lineStep_foldl_acc (chunks : List (List Nat)) (acc : List (List Nat))
    (buf : List Nat) :
    chunks.foldl lineStep (acc, buf) =
      (acc ++ (chunks.foldl lineStep ([], buf)).1,
       (chunks.foldl lineStep ([], buf)).2) := by
  induction chunks generalizing acc buf with
  | nil => simp
  | cons ch rest ih =>
    simp only [List.foldl_cons, lineStep, List.nil_append]
    rw [ih (acc ++ (extractLines (buf ++ ch)).1),
      ih ((extractLines (buf ++ ch)).1)]
    simp [List.append_assoc]

/-- C9: `cmd_execute_and_stream_lines` splits only on the byte `'\n'` and
strips only that byte: a `"\r\n"`-terminated line is emitted with its
trailing `'\r'` (byte 13) retained. -/
theorem stream_lines_keeps_cr (a : List Nat) (chunks : List (List Nat))
    (ha : 10 ∉ a) :
    streamLines ((a ++ [13, 10]) :: chunks) = (a ++ [13]) :: streamLines chunks := by
  have hnot : 10 ∉ a ++ [13] := by
    intro h
    rcases List.mem_append.1 h with h' | h'
    · exact ha h'
    · simp at h'
  have hE : extractLines (a ++ [13, 10]) = ([a ++ [13]], []) := by
    have : a ++ [13, 10] = (a ++ [13]) ++ 10 :: [] := by simp
    rw [this, extractLines_append_nl (a ++ [13]) [] hnot]
    simp [extractLines]
  simp only [streamLines, List.foldl_cons, lineStep, List.nil_append, hE]
  rw [lineStep_foldl_acc chunks [a ++ [13]] []]
  simp

theorem stream_lines_keeps_cr_witness :
    streamLines [[97, 13, 10]] = [97, 13] :: streamLines [] :=
  stream_lines_keeps_cr [97] [] (by decide)

/-! ## Process spawner: blocking execution and streamed execution exit codes

`System::cmd_execute` (Windows path) performs the pre-spawn coordinator
transition, creates the child, blocks in `ProcessInfo::wait_and_close_handles`
(`WaitForSingleObject` + `GetExitCodeProcess`), casts the `DWORD` exit code to
`int`, and performs the post-completion transition.  The OS wait primitive is
modelled as faithfully reporting the child's 32-bit exit status; the child's
combined output plays no role in the returned code. -/

/-- `ProcessInfo::wait_and_close_handles`: returns the child's exit status as
the `DWORD` (unsigned 32-bit) reported by `GetExitCodeProcess`. -/
def wait_and_close_handles (exitStatus : Nat) : Nat :=
  exitStatus % 4294967296

/-- `static_cast<int>` of an unsigned 32-bit value: two's-complement
reinterpretation. -/
def uintToInt (n : Nat) : Int :=
  if n < 2147483648 then (n : Int) else (n : Int) - 4294967296

/-- `System::cmd_execute` (Windows path): pre-spawn transition, spawn, blocking
wait, post-completion transition; result is the coordinator state and the
child's exit code cast to `int`.  `output` is the child's combined output,
which the function never examines. -/
def cmd_execute (s : CoordState) (exitStatus : Nat) (output : List Nat) :
    CoordState × Int :=
  let s1 := transition_to_spawn_process s
  let exit_code := uintToInt (wait_and_close_handles exitStatus)
  let s2 := transition_from_spawn_process s1
  (s2, exit_code)

/-- C5: a child that terminates with exit status 42, run through the blocking
execute path (spawn followed by wait), yields the integer 42 exactly,
regardless of what output it produced. -/
theorem cmd_execute_exit_42 (output : List Nat) :
    (cmd_execute initCoord 42 output).2 = 42 := rfl

/-- How the read loop over the child's merged output ended: normal
end-of-stream, or an I/O error while reading. -/
inductive ReadEnd
  | eof
  | ioError
  deriving DecidableEq, Repr

/-- `ProcessInfoAndPipes::wait_and_stream_output` (Windows): the `ReadFile`
loop delivers each chunk to the callback; `ReadFile` returning `FALSE`
(whether from end-of-stream or from an I/O error) merely ends the loop, after
which the function returns `wait_and_close_handles` — the child's own exit
code.  The result models (exit code, chunks delivered to the callback). -/
def wait_and_stream_output (chunks : List (List Nat)) (ending : ReadEnd)
    (exitStatus : Nat) : Int × List (List Nat) :=
  (uintToInt (wait_and_close_handles exitStatus), chunks)

/-- `System::cmd_execute_and_stream_data`, Windows path: spawn redirected and
stream via `wait_and_stream_output`. -/
def cmd_execute_and_stream_data_win (chunks : List (List Nat)) (ending : ReadEnd)
    (exitStatus : Nat) : Int × List (List Nat) :=
  wait_and_stream_output chunks ending exitStatus

/-- `System::cmd_execute_and_stream_data`, POSIX path: the `popen`/`fgets`
loop delivers chunks until `fgets` fails; then `if (!feof(pipe)) return 1;`
turns a read error into the sentinel exit code 1, and otherwise the `pclose`
status is returned. -/
def cmd_execute_and_stream_data_posix (chunks : List (List Nat)) (ending : ReadEnd)
    (pcloseStatus : Int) : Int × List (List Nat) :=
  match ending with
  | .ioError => (1, chunks)
  | .eof => (pcloseStatus, chunks)

/-- C7, counterexample to the claim as stated: on the Windows path a stream
invocation in which an I/O error ends the read loop returns the child's actual
exit code, which can be `0` — not a non-zero error-sentinel exit code. -/
theorem stream_io_error_counterexample :
    (cmd_execute_and_stream_data_win [[104, 105]] ReadEnd.ioError 0).1 = 0 := rfl

/-- C7 amended: an I/O error while reading the child's merged output ends the
read loop like an end-of-stream, and every chunk already delivered to the
callback remains delivered; on the POSIX path the call then returns the
sentinel exit code 1, while on the Windows path it returns the child's own
exit code (possibly zero), exactly as it would at a normal end-of-stream. -/
theorem stream_io_error_eos (chunks : List (List Nat)) (exitStatus : Nat)
    (pcloseStatus : Int) :
    cmd_execute_and_stream_data_posix chunks ReadEnd.ioError pcloseStatus = (1, chunks) ∧
    (cmd_execute_and_stream_data_win chunks ReadEnd.ioError exitStatus).2 = chunks ∧
    (cmd_execute_and_stream_data_win chunks ReadEnd.ioError exitStatus).1 =
      (cmd_execute_and_stream_data_win chunks ReadEnd.eof exitStatus).1 :=
  ⟨rfl, rfl, rfl⟩

/-! ## Environment builder: `System::get_environment` (Windows path)

`get_environment(extra_env, prepend_to_path)` builds the environment block for
a child process.  The current process environment is modelled as a function
`cur : String → Option String` (`get_environment_variable`); the block is
modelled as the ordered list of `NAME=value` entries appended to `env_cstr`.
The `unordered_map` of extra variables is modelled as a list of pairs with
distinct keys, in some iteration order.  `value_or_exit` on a missing
`SystemRoot` aborts the process, so the builder returns `Option`. -/

/-- The fixed allow-list `env_wstrings` of inheritable variable names. -/
def baseVars : List String :=
  ["ALLUSERSPROFILE", "APPDATA", "CommonProgramFiles", "CommonProgramFiles(x86)",
   "CommonProgramW6432", "COMPUTERNAME", "ComSpec", "HOMEDRIVE", "HOMEPATH",
   "LOCALAPPDATA", "LOGONSERVER", "NUMBER_OF_PROCESSORS", "OS", "PATHEXT",
   "PROCESSOR_ARCHITECTURE", "PROCESSOR_ARCHITEW6432", "PROCESSOR_IDENTIFIER",
   "PROCESSOR_LEVEL", "PROCESSOR_REVISION", "ProgramData", "ProgramFiles",
   "ProgramFiles(x86)", "ProgramW6432", "PROMPT", "PSModulePath", "PUBLIC",
   "SystemDrive", "SystemRoot", "TEMP", "TMP", "USERDNSDOMAIN", "USERDOMAIN",
   "USERDOMAIN_ROAMINGPROFILE", "USERNAME", "USERPROFILE", "windir",
   "http_proxy", "https_proxy", "CUDA_PATH", "CUDA_PATH_V9_0", "CUDA_PATH_V9_1",
   "CUDA_PATH_V10_0", "CUDA_PATH_V10_1", "CUDA_TOOLKIT_ROOT_DIR",
   "NVCUDASAMPLES_ROOT", "VULKAN_SDK", "ANDROID_NDK_HOME"]

/-- Modelled from the spec: `Strings::split` (its source is not among the
provided sources) splits `VCPKG_KEEP_ENV_VARS` on the `";"` delimiter; the
spec describes the value as "a delimiter-separated list of additional variable
names to keep", so empty tokens are dropped. -/
def splitSemi (s : String) : List String :=
  (s.splitOn ";").filter (fun t => t != "")

/-- The runtime extension of the allow-list taken from the well-known override
variable `VCPKG_KEEP_ENV_VARS` (used only when set and non-empty). -/
def keepListOf (cur : String → Option String) : List String :=
  match cur "VCPKG_KEEP_ENV_VARS" with
  | some k => if k = "" then [] else splitSemi k
  | none => []

/-- The allow-list actually iterated: the fixed list plus the keep-list. -/
def allowedVars (cur : String → Option String) : List String :=
  baseVars ++ keepListOf cur

/-- The loop body over `env_wstrings`: a name contributes a `NAME=value` entry
exactly when the current process has a non-empty value for it
(`if (!v || v->empty()) continue;`). -/
def envEntryOf (cur : String → Option String) (n : String) :
    Option (String × String) :=
  match cur n with
  | some v => if v = "" then none else some (n, v)
  | none => none

/-- Whether a name passes the non-empty-in-current-process test. -/
def keptVar (cur : String → Option String) (n : String) : Bool :=
  match cur n with
  | some v => if v = "" then false else true
  | none => false

/-- The synthesized `Path` value:
`prepend_to_path + system32 + ";" + SystemRoot + ";" + system32 + "\Wbem;" +
system32 + "\WindowsPowerShell\v1.0\"`, with a caller-supplied `PATH` extra
variable appended after a `";"`. -/
def pathEntryValue (sysRoot prepend : String)
    (extra : List (String × String)) : String :=
  let system32 := sysRoot ++ "\\system32"
  let base := prepend ++ system32 ++ ";" ++ sysRoot ++ ";" ++ system32 ++
    "\\Wbem;" ++ system32 ++ "\\WindowsPowerShell\\v1.0\\"
  match extra.lookup "PATH" with
  | some v => base ++ ";" ++ v
  | none => base

/-- `System::get_environment`, Windows path: the allow-listed entries with
non-empty current values, then the synthesized `Path` entry, then the
hardcoded `VSLANG=1033` entry, then every caller-supplied extra variable other
than `PATH`, verbatim.  `none` models the `value_or_exit` abort when
`SystemRoot` is unset. -/
def get_environment (cur : String → Option String)
    (extra : List (String × String)) (prepend : String) :
    Option (List (String × String)) :=
  match cur "SystemRoot" with
  | none => none
  | some sysRoot =>
    some ((allowedVars cur).filterMap (envEntryOf cur)
      ++ [("Path", pathEntryValue sysRoot prepend extra), ("VSLANG", "1033")]
      ++ extra.filter (fun p => p.1 != "PATH"))

/-- The name set asserted by claim C4, following the spec's words: the
allow-listed base variables that are non-empty in the current process, every
caller-supplied extra variable, and the synthesized search-path variable —
and nothing else.  Used to refute the claim as stated. -/
def claimedEnvNames (cur : String → Option String)
    (extra : List (String × String)) : List String :=
  (baseVars ++ keepListOf cur).filter (fun n => keptVar cur n)
    ++ extra.map Prod.fst ++ ["Path"]

/-- A current-process environment with only `SystemRoot` set, for concrete
evaluations. -/
def curSystemRootOnly : String → Option String :=
  fun n => if n = "SystemRoot" then some "C:\\Windows" else none

/-- The effective value of a name in an environment block under the override
semantics the spec ascribes to appended duplicates: the value of the last
entry carrying that name. -/
def lookupLast (n : String) (b : List (String × String)) : Option String :=
  b.reverse.lookup n

theorem envEntryOf_some (cur : String → Option String) (n x v : String)
    (h : envEntryOf cur n = some (x, v)) :
    n = x ∧ cur n = some v ∧ ¬ v = "" := by
  cases hc : cur n with
  | none => simp [envEntryOf, hc] at h
  | some u =>
    by_cases hu : u = "" <;> simp [envEntryOf, hc, hu] at h
    obtain ⟨rfl, rfl⟩ := h
    exact ⟨rfl, rfl, hu⟩

theorem mem_filterMap_names (cur : String → Option String) (vs : List String)
    (x : String) :
    x ∈ (vs.filterMap (envEntryOf cur)).map Prod.fst ↔
      (x ∈ vs ∧ keptVar cur x = true) := by
  constructor
  · intro hx
    obtain ⟨p, hp, rfl⟩ := List.mem_map.1 hx
    obtain ⟨n, hn, he⟩ := List.mem_filterMap.1 hp
    obtain ⟨hnx, hcur, hv⟩ := envEntryOf_some cur n p.1 p.2 he
    subst hnx
    exact ⟨hn, by simp [keptVar, hcur, hv]⟩
  · rintro ⟨hmem, hkept⟩
    cases hc : cur x with
    | none => simp [keptVar, hc] at hkept
    | some v =>
      by_cases hv : v = ""
      · simp [keptVar, hc, hv] at hkept
      · have he : envEntryOf cur x = some (x, v) := by simp [envEntryOf, hc, hv]
        exact List.mem_map.2 ⟨(x, v), List.mem_filterMap.2 ⟨x, hmem, he⟩, rfl⟩

theorem mem_filter_names (extra : List (String × String)) (x : String) :
    x ∈ (extra.filter (fun p => p.1 != "PATH")).map Prod.fst ↔
      (x ∈ extra.map Prod.fst ∧ x ≠ "PATH") := by
  constructor
  · intro hx
    obtain ⟨p, hp, rfl⟩ := List.mem_map.1 hx
    have h := List.mem_filter.1 hp
    exact ⟨List.mem_map.2 ⟨p, h.1, rfl⟩, by simpa using h.2⟩
  · rintro ⟨hx, hne⟩
    obtain ⟨p, hp, rfl⟩ := List.mem_map.1 hx
    exact List.mem_map.2 ⟨p, List.mem_filter.2 ⟨hp, by simpa using hne⟩, rfl⟩

/-- C4, counterexample to the claim as stated: with only `SystemRoot` set in
the current process and the single extra variable `PATH`, the produced block's
names are `SystemRoot`, `Path`, `VSLANG` — the hardcoded `VSLANG` appears even
though it is in none of the claim's three categories, and the caller-supplied
name `PATH` (asserted present by the claim) does not appear as an entry of its
own, its value being folded into the synthesized `Path` entry instead. -/
theorem get_environment_names_counterexample :
    (get_environment curSystemRootOnly [("PATH", "p")] "").map
        (fun b => b.map Prod.fst) = some ["SystemRoot", "Path", "VSLANG"] ∧
    "VSLANG" ∉ claimedEnvNames curSystemRootOnly [("PATH", "p")] ∧
    "PATH" ∈ claimedEnvNames curSystemRootOnly [("PATH", "p")] := by decide

/-- C4 amended: for every current-process environment with `SystemRoot` set,
extra-variable mapping and path prefix, the names appearing in the produced
block are exactly: the allow-listed variables (fixed list plus the
`VCPKG_KEEP_ENV_VARS` keep-list) whose current value exists and is non-empty,
every caller-supplied extra variable except one named `PATH` (whose value is
folded into the synthesized `Path` entry), the synthesized `Path` variable,
and the hardcoded `VSLANG` variable. -/
theorem get_environment_names (cur : String → Option String)
    (extra : List (String × String)) (prepend : String)
    (b : List (String × String)) (x : String)
    (hb : get_environment cur extra prepend = some b) :
    x ∈ b.map Prod.fst ↔
      ((x ∈ allowedVars cur ∧ keptVar cur x = true) ∨
       (x ∈ extra.map Prod.fst ∧ x ≠ "PATH") ∨ x = "Path" ∨ x = "VSLANG") := by
  cases hsr : cur "SystemRoot" with
  | none => simp [get_environment, hsr] at hb
  | some sysRoot =>
    simp only [get_environment, hsr, Option.some.injEq] at hb
    subst hb
    simp only [List.map_append, List.mem_append, mem_filterMap_names,
      mem_filter_names, List.map_cons, List.map_nil, List.mem_cons,
      List.not_mem_nil, or_false]
    tauto

theorem get_environment_names_witness :
    (get_environment curSystemRootOnly [("FOO", "x")] "" =
      some [("SystemRoot", "C:\\Windows"),
        ("Path", "C:\\Windows\\system32;C:\\Windows;C:\\Windows\\system32\\Wbem;C:\\Windows\\system32\\WindowsPowerShell\\v1.0\\"),
        ("VSLANG", "1033"), ("FOO", "x")]) ∧
    ("VSLANG" ∈ ([("SystemRoot", "C:\\Windows"),
        ("Path", "C:\\Windows\\system32;C:\\Windows;C:\\Windows\\system32\\Wbem;C:\\Windows\\system32\\WindowsPowerShell\\v1.0\\"),
        ("VSLANG", "1033"), ("FOO", "x")] : List (String × String)).map Prod.fst ↔
      (("VSLANG" ∈ allowedVars curSystemRootOnly ∧
          keptVar curSystemRootOnly "VSLANG" = true) ∨
       ("VSLANG" ∈ ([("FOO", "x")] : List (String × String)).map Prod.fst ∧
          "VSLANG" ≠ "PATH") ∨
       "VSLANG" = "Path" ∨ "VSLANG" = "VSLANG")) :=
  ⟨by decide,
   get_environment_names curSystemRootOnly [("FOO", "x")] ""
     [("SystemRoot", "C:\\Windows"),
      ("Path", "C:\\Windows\\system32;C:\\Windows;C:\\Windows\\system32\\Wbem;C:\\Windows\\system32\\WindowsPowerShell\\v1.0\\"),
      ("VSLANG", "1033"), ("FOO", "x")] "VSLANG" (by decide)⟩

theorem lookup_append_left (n v : String) (l₁ l₂ : List (String × String))
    (h : l₁.lookup n = some v) : (l₁ ++ l₂).lookup n = some v := by
  induction l₁ with
  | nil => simp [List.lookup] at h
  | cons p t ih =>
    obtain ⟨k, w⟩ := p
    simp only [List.cons_append, List.lookup] at h ⊢
    cases hnk : (n == k) <;> simp_all

theorem lookup_of_names_nodup (l : List (String × String)) (n v : String)
    (hnd : (l.map Prod.fst).Nodup) (hm : (n, v) ∈ l) :
    l.lookup n = some v := by
  induction l with
  | nil => cases hm
  | cons p t ih =>
    obtain ⟨k, w⟩ := p
    simp only [List.map_cons, List.nodup_cons] at hnd
    rcases List.mem_cons.1 hm with heq | hmt
    · obtain ⟨rfl, rfl⟩ : n = k ∧ v = w := by simpa using heq
      simp [List.lookup]
    · have hnk : ¬ n = k := by
        rintro rfl
        exact hnd.1 (List.mem_map.2 ⟨(n, v), hmt, rfl⟩)
      have hbeq : (n == k) = false := by simpa using hnk
      simpa [List.lookup, hbeq] using ih hnd.2 hmt

/-- C8: every caller-supplied extra variable other than `PATH` appears in the
produced block verbatim, and it is the last entry with its name, so under the
spec's override semantics for appended duplicates its value — not that of a
same-named allow-listed base entry — takes effect.  The `unordered_map` of
extras has distinct keys, hence the `Nodup` hypothesis. -/
theorem get_environment_extra_override (cur : String → Option String)
    (extra : List (String × String)) (prepend : String)
    (b : List (String × String)) (n v : String)
    (hnd : (extra.map Prod.fst).Nodup) (hmem : (n, v) ∈ extra)
    (hn : n ≠ "PATH") (hb : get_environment cur extra prepend = some b) :
    (n, v) ∈ b ∧ lookupLast n b = some v := by
  cases hsr : cur "SystemRoot" with
  | none => simp [get_environment, hsr] at hb
  | some sysRoot =>
    simp only [get_environment, hsr, Option.some.injEq] at hb
    subst hb
    have hmemF : (n, v) ∈ extra.filter (fun p => p.1 != "PATH") :=
      List.mem_filter.2 ⟨hmem, by simpa using hn⟩
    refine ⟨List.mem_append.2 (Or.inr hmemF), ?_⟩
    unfold lookupLast
    rw [List.reverse_append]
    apply lookup_append_left
    apply lookup_of_names_nodup
    · have hsub : ((extra.filter (fun p => p.1 != "PATH")).map Prod.fst).Sublist
          (extra.map Prod.fst) := (List.filter_sublist extra).map Prod.fst
      have hndF : ((extra.filter (fun p => p.1 != "PATH")).map Prod.fst).Nodup :=
        hnd.sublist hsub
      rw [List.map_reverse]
      exact List.nodup_reverse.2 hndF
    · exact List.mem_reverse.2 hmemF

theorem get_environment_extra_override_witness :
    (("FOO", "x") ∈ ([("SystemRoot", "C:\\Windows"),
        ("Path", "C:\\Windows\\system32;C:\\Windows;C:\\Windows\\system32\\Wbem;C:\\Windows\\system32\\WindowsPowerShell\\v1.0\\"),
        ("VSLANG", "1033"), ("FOO", "x")] : List (String × String))) ∧
    lookupLast "FOO" [("SystemRoot", "C:\\Windows"),
        ("Path", "C:\\Windows\\system32;C:\\Windows;C:\\Windows\\system32\\Wbem;C:\\Windows\\system32\\WindowsPowerShell\\v1.0\\"),
        ("VSLANG", "1033"), ("FOO", "x")] = some "x" :=
  get_environment_extra_override curSystemRootOnly [("FOO", "x")] ""
    [("SystemRoot", "C:\\Windows"),
     ("Path", "C:\\Windows\\system32;C:\\Windows;C:\\Windows\\system32\\Wbem;C:\\Windows\\system32\\WindowsPowerShell\\v1.0\\"),
     ("VSLANG", "1033"), ("FOO", "x")] "FOO" "x"
    (by decide) (by decide) (by decide) (by decide)

/-! ## Environment-diff extraction: `System::cmd_execute_modify_env`

The function runs `cmd_line & echo <magic>& set` in capture mode, checks the
exit code, finds the first occurrence of the sentinel followed by `"\r\n"`,
and parses `NAME=VALUE` pairs from just past it: find the next `'='` anywhere
in the remaining output (the scan is not line-bounded), take the text before
it as the name, find the next `'\r'` after the `'='`, take the text between as
the value, skip one following `'\n'`, and repeat; break when no `'='` or no
`'\r'` remains.  The captured output is modelled as `List Char` and the two
`Checks::check_exit` aborts as `none`. -/

/-- The `magic_string` literal `"cdARN4xjKueKScMy9C6H"`. -/
def magic_string : List Char :=
  ['c', 'd', 'A', 'R', 'N', '4', 'x', 'j', 'K', 'u', 'e', 'K', 'S', 'c', 'M',
   'y', '9', 'C', '6', 'H']

/-- `Strings::search`: index of the first occurrence of `pat` in the list. -/
def findSub (pat : List Char) : List Char → Option Nat
  | [] => if pat = [] then some 0 else none
  | c :: rest =>
    if pat.isPrefixOf (c :: rest) then some 0
    else
      match findSub pat rest with
      | some i => some (i + 1)
      | none => none

/-- `std::find(it, e, ch)` as a splitter: the segment before the first
occurrence of `ch` and the remainder after it; `none` when `ch` does not occur
(the loop's break condition). -/
def splitAtChar (ch : Char) : List Char → Option (List Char × List Char)
  | [] => none
  | c :: rest =>
    if c = ch then some ([], rest)
    else
      match splitAtChar ch rest with
      | some (a, b) => some (c :: a, b)
      | none => none

/-- `it = nl + 1; if (it != e && *it == '\n') ++it;` — skip one LF. -/
def dropLf : List Char → List Char
  | [] => []
  | c :: r => if c = '\n' then r else c :: r

/-- The `while (1)` parse loop of `cmd_execute_modify_env`, with an explicit
iteration bound: each iteration consumes at least two characters, so the input
length (the initial fuel used by `parseVars`) bounds the number of
iterations. -/
def parseVarsLoop : Nat → List Char → List (List Char × List Char)
  | 0, _ => []
  | fuel + 1, l =>
    match splitAtChar '=' l with
    | none => []
    | some (varname, rest1) =>
      match splitAtChar '\r' rest1 with
      | none => []
      | some (value, rest2) =>
        (varname, value) :: parseVarsLoop fuel (dropLf rest2)

/-- The parse loop applied to the output after the sentinel. -/
def parseVars (l : List Char) : List (List Char × List Char) :=
  parseVarsLoop l.length l

/-- `System::cmd_execute_modify_env`: `none` models the `check_exit` aborts on
a non-zero exit code of the setup command and on a missing sentinel; otherwise
the `NAME=VALUE` pairs parsed from just past the first occurrence of
`magic_string ++ "\r\n"` form the derived environment. -/
def cmd_execute_modify_env (exit_code : Int) (output : List Char) :
    Option (List (List Char × List Char)) :=
  if exit_code = 0 then
    match findSub (magic_string ++ ['\r', '\n']) output with
    | none => none
    | some i => some (parseVars (output.drop (i + (magic_string.length + 2))))
  else none

theorem splitAtChar_eq (ch : Char) (l : List Char) :
    ∀ a b, splitAtChar ch l = some (a, b) → l = a ++ ch :: b := by
  induction l with
  | nil => intro a b h; simp [splitAtChar] at h
  | cons c r ih =>
    intro a b h
    by_cases hc : c = ch
    · simp [splitAtChar, hc] at h
      obtain ⟨rfl, rfl⟩ := h
      simp [hc]
    · simp only [splitAtChar, if_neg hc] at h
      cases hs : splitAtChar ch r with
      | none => rw [hs] at h; simp at h
      | some p =>
        obtain ⟨a', b'⟩ := p
        rw [hs] at h
        simp only [Option.some.injEq, Prod.mk.injEq] at h
        obtain ⟨rfl, rfl⟩ := h
        simp [ih a' b' hs]

theorem splitAtChar_append (ch : Char) (a b : List Char) (ha : ch ∉ a) :
    splitAtChar ch (a ++ ch :: b) = some (a, b) := by
  induction a with
  | nil => simp [splitAtChar]
  | cons c a' ih =>
    have hc : ¬ c = ch := by intro h; exact ha (by simp [h])
    simp only [List.cons_append, splitAtChar, if_neg hc, List.append_eq]
    rw [ih (by intro h; exact ha (by simp [h]))]

theorem splitAtChar_not_found (ch : Char) (l : List Char) (h : ch ∉ l) :
    splitAtChar ch l = none := by
  induction l with
  | nil => rfl
  | cons c r ih =>
    have hc : ¬ c = ch := by intro he; exact h (by simp [he])
    simp only [splitAtChar, if_neg hc]
    rw [ih (by intro hm; exact h (by simp [hm]))]

theorem dropLf_length_le (l : List Char) : (dropLf l).length ≤ l.length := by
  cases l with
  | nil => simp [dropLf]
  | cons c r => simp only [dropLf]; split_ifs <;> simp

theorem parseVarsLoop_eq_of_le (f : Nat) :
    ∀ (g : Nat) (l : List Char), l.length ≤ f → l.length ≤ g →
      parseVarsLoop f l = parseVarsLoop g l := by
  induction f with
  | zero =>
    intro g l hf _
    obtain rfl : l = [] := List.length_eq_zero.1 (Nat.le_zero.1 hf)
    cases g <;> simp [parseVarsLoop, splitAtChar]
  | succ f ih =>
    intro g l hf hg
    cases g with
    | zero =>
      obtain rfl : l = [] := List.length_eq_zero.1 (Nat.le_zero.1 hg)
      simp [parseVarsLoop, splitAtChar]
    | succ g =>
      simp only [parseVarsLoop]
      cases h1 : splitAtChar '=' l with
      | none => rfl
      | some p =>
        obtain ⟨a, b⟩ := p
        dsimp only
        cases h2 : splitAtChar '\r' b with
        | none => rfl
        | some q =>
          obtain ⟨v, r⟩ := q
          dsimp only
          have hb : b.length < l.length := by
            rw [splitAtChar_eq '=' l a b h1]
            simp
            omega
          have hr : r.length < b.length := by
            rw [splitAtChar_eq '\r' b v r h2]
            simp
            omega
          have hd : (dropLf r).length ≤ r.length := dropLf_length_le r
          exact congrArg (List.cons (a, v)) (ih g (dropLf r) (by omega) (by omega))

theorem parseVars_eq (l : List Char) :
    parseVars l =
      match splitAtChar '=' l with
      | none => []
      | some (varname, rest1) =>
        match splitAtChar '\r' rest1 with
        | none => []
        | some (value, rest2) => (varname, value) :: parseVars (dropLf rest2) := by
  cases l with
  | nil => rfl
  | cons c r =>
    show parseVarsLoop (r.length + 1) (c :: r) = _
    simp only [parseVarsLoop]
    cases h1 : splitAtChar '=' (c :: r) with
    | none => rfl
    | some p =>
      obtain ⟨a, b⟩ := p
      dsimp only
      cases h2 : splitAtChar '\r' b with
      | none => rfl
      | some q =>
        obtain ⟨v, rr⟩ := q
        dsimp only
        have hb : b.length < (c :: r).length := by
          rw [splitAtChar_eq '=' (c :: r) a b h1]
          simp
          omega
        have hrr : rr.length < b.length := by
          rw [splitAtChar_eq '\r' b v rr h2]
          simp
          omega
        have hd : (dropLf rr).length ≤ rr.length := dropLf_length_le rr
        simp only [List.length_cons] at hb
        exact congrArg (List.cons (a, v))
          (parseVarsLoop_eq_of_le r.length (dropLf rr).length (dropLf rr)
            (by omega) (by omega))

theorem parseVars_step (a v r : List Char) (ha : '=' ∉ a) (hv : '\r' ∉ v) :
    parseVars (a ++ '=' :: (v ++ '\r' :: r)) = (a, v) :: parseVars (dropLf r) := by
  rw [parseVars_eq, splitAtChar_append '=' a _ ha]
  dsimp only
  rw [splitAtChar_append '\r' v r hv]

theorem parseVars_no_equal (l : List Char) (h : '=' ∉ l) : parseVars l = [] := by
  rw [parseVars_eq, splitAtChar_not_found '=' l h]

theorem parseVars_no_cr (l : List Char) (h : '\r' ∉ l) : parseVars l = [] := by
  rw [parseVars_eq]
  cases hs : splitAtChar '=' l with
  | none => rfl
  | some p =>
    obtain ⟨a, b⟩ := p
    dsimp only
    have hb : '\r' ∉ b := by
      intro hm
      exact h (by rw [splitAtChar_eq '=' l a b hs]; simp [hm])
    rw [splitAtChar_not_found '\r' b hb]

theorem isPrefixOf_append_self (l t : List Char) : l.isPrefixOf (l ++ t) = true := by
  induction l with
  | nil => simp [List.isPrefixOf]
  | cons c r ih => simp [List.isPrefixOf, ih]

theorem findSub_self (pat rest : List Char) (hp : pat ≠ []) :
    findSub pat (pat ++ rest) = some 0 := by
  cases pat with
  | nil => exact absurd rfl hp
  | cons c r =>
    have hpre := isPrefixOf_append_self (c :: r) rest
    rw [List.cons_append] at hpre
    rw [List.cons_append]
    simp only [findSub, hpre, if_true]

theorem cmd_execute_modify_env_found (rest : List Char) :
    cmd_execute_modify_env 0 ((magic_string ++ ['\r', '\n']) ++ rest) =
      some (parseVars rest) := by
  have hfs :
      findSub (magic_string ++ ['\r', '\n']) ((magic_string ++ ['\r', '\n']) ++ rest) =
        some 0 := findSub_self _ _ (by decide)
  have h22 : (0 : Nat) + (magic_string.length + 2) =
      (magic_string ++ ['\r', '\n']).length := by decide
  simp only [cmd_execute_modify_env, eq_self_iff_true, if_true, hfs]
  rw [h22, List.drop_left]

/-- C6, counterexample to the claim as stated: after the sentinel and
`VAR1=A\r\nVAR2=B\r\n` the output continues with `foo bar\r\nbaz=qux\r\n`,
whose first line `foo bar` is malformed (no `=`).  The claim asserts the
derived environment is exactly `VAR1=A, VAR2=B` with nothing at or after the
malformed line; the code, whose `'='`-scan is not line-bounded, also emits the
pair `("foo bar\r\nbaz", "qux")` spanning the malformed line. -/
theorem cmd_execute_modify_env_counterexample :
    cmd_execute_modify_env 0
        (magic_string ++ "\r\nVAR1=A\r\nVAR2=B\r\nfoo bar\r\nbaz=qux\r\n".toList) =
      some [("VAR1".toList, "A".toList), ("VAR2".toList, "B".toList),
        ("foo bar\r\nbaz".toList, "qux".toList)] := by decide

/-- C6 amended: if the captured output's first sentinel occurrence is followed
by `VAR1=A\r\nVAR2=B\r\n` and then content containing no `'='` byte, the
derived environment is exactly `VAR1=A, VAR2=B` — nothing at or after the
first malformed line (the parse breaks when no `'='` remains; trailing content
that does contain an `'='` can instead contribute a spurious pair).  And the
extraction fails non-recoverably (`none`) when the setup command's exit code
is non-zero or the sentinel is not found in the output. -/
theorem cmd_execute_modify_env_spec (trailer out : List Char) (ec : Int)
    (h1 : '=' ∉ trailer) (h2 : ec ≠ 0)
    (h3 : findSub (magic_string ++ ['\r', '\n']) out = none) :
    cmd_execute_modify_env 0
        ((magic_string ++ ['\r', '\n']) ++ ("VAR1=A\r\nVAR2=B\r\n".toList ++ trailer)) =
      some [("VAR1".toList, "A".toList), ("VAR2".toList, "B".toList)] ∧
    cmd_execute_modify_env ec out = none ∧
    cmd_execute_modify_env 0 out = none := by
  refine ⟨?_, ?_, ?_⟩
  · rw [cmd_execute_modify_env_found]
    have e1 : "VAR1=A\r\nVAR2=B\r\n".toList ++ trailer =
        "VAR1".toList ++ '=' :: ("A".toList ++ '\r' :: '\n' ::
          ("VAR2".toList ++ '=' :: ("B".toList ++ '\r' :: '\n' :: trailer))) := rfl
    rw [e1, parseVars_step _ _ _ (by decide) (by decide)]
    have e2 : dropLf ('\n' :: ("VAR2".toList ++ '=' ::
        ("B".toList ++ '\r' :: '\n' :: trailer))) =
        "VAR2".toList ++ '=' :: ("B".toList ++ '\r' :: '\n' :: trailer) := by
      simp [dropLf]
    rw [e2, parseVars_step _ _ _ (by decide) (by decide)]
    have e3 : dropLf ('\n' :: trailer) = trailer := by simp [dropLf]
    rw [e3, parseVars_no_equal trailer h1]
  · simp [cmd_execute_modify_env, h2]
  · simp [cmd_execute_modify_env, h3]

theorem cmd_execute_modify_env_spec_witness :
    (('=' ∉ "junk\r\n".toList) ∧ ((1 : Int) ≠ 0) ∧
      (findSub (magic_string ++ ['\r', '\n']) [] = none)) ∧
    (cmd_execute_modify_env 0
        ((magic_string ++ ['\r', '\n']) ++
          ("VAR1=A\r\nVAR2=B\r\n".toList ++ "junk\r\n".toList)) =
      some [("VAR1".toList, "A".toList), ("VAR2".toList, "B".toList)] ∧
    cmd_execute_modify_env 1 [] = none ∧
    cmd_execute_modify_env 0 [] = none) :=
  ⟨⟨by decide, by decide, by decide⟩,
   cmd_execute_modify_env_spec "junk\r\n".toList [] 1 (by decide) (by decide)
     (by decide)⟩

/-- C10: a final `NAME=VALUE` pair after the sentinel whose value is not
terminated by a `'\r'` byte is silently omitted: parsing a pair requires the
value to end at a `'\r'`, and the loop breaks when no `'\r'` is found before
the end of the output. -/
theorem modify_env_drops_unterminated_pair (n1 v1 name value : List Char)
    (hn1 : '=' ∉ n1) (hv1 : '\r' ∉ v1) (hnv : '\r' ∉ name ++ '=' :: value) :
    cmd_execute_modify_env 0 ((magic_string ++ ['\r', '\n']) ++
        (n1 ++ '=' :: (v1 ++ '\r' :: '\n' :: (name ++ '=' :: value)))) =
      some [(n1, v1)] := by
  rw [cmd_execute_modify_env_found]
  have e1 : n1 ++ '=' :: (v1 ++ '\r' :: '\n' :: (name ++ '=' :: value)) =
      n1 ++ '=' :: (v1 ++ '\r' :: ('\n' :: (name ++ '=' :: value))) := rfl
  rw [e1, parseVars_step _ _ _ hn1 hv1]
  have e2 : dropLf ('\n' :: (name ++ '=' :: value)) = name ++ '=' :: value := by
    simp [dropLf]
  rw [e2, parseVars_no_cr _ hnv]

theorem modify_env_drops_unterminated_pair_witness :
    (('=' ∉ "VAR1".toList) ∧ ('\r' ∉ "A".toList) ∧
      ('\r' ∉ "VAR2".toList ++ '=' :: "B".toList)) ∧
    cmd_execute_modify_env 0 ((magic_string ++ ['\r', '\n']) ++
        ("VAR1".toList ++ '=' :: ("A".toList ++ '\r' :: '\n' ::
          ("VAR2".toList ++ '=' :: "B".toList)))) =
      some [("VAR1".toList, "A".toList)] :=
  ⟨⟨by decide, by decide, by decide⟩,
   modify_env_drops_unterminated_pair "VAR1".toList "A".toList "VAR2".toList
     "B".toList (by decide) (by decide) (by decide)⟩
